import Mathlib

/-!
# go-redlock: construction of a lock (`New`) and its two methods

A shallow embedding of `src/redlock.go`.  `Lock` and `Unlock` act on a world
made of the external store and the log of client calls.  Go `int` fields are modelled as `Int`;
the single floating-point expression of the file,
`int(float32(conf.Expire) * 2 / 3)`, is modelled with an exact value semantics
of IEEE-754 binary32 (every float is the rational it denotes, every operation
is the exact operation followed by rounding to nearest, ties to even).
-/

namespace Redlock

/-! ## Constants and errors (redlock.go, lines 11-29) -/

/-- MinLockExpire represents minimum lock expire time (ms). -/
def MinLockExpire : Int := 300

/-- DefaultLockExpire represents default lock expire time (ms). -/
def DefaultLockExpire : Int := 3000

/-- DefaultRetryTimes represents default auto-retry times. -/
def DefaultRetryTimes : Int := 3

/-- The four error values declared by the package. -/
inductive Err where
  | ErrLockWithoutName
  | ErrLockExpireTooSmall
  | ErrNotAcquired
  | ErrLockNotHeld
  deriving DecidableEq, Repr

/-! ## Data model (redlock.go, lines 40-56) -/

/-- Config of a lock; `refreshInterval` is the unexported field. -/
structure Config where
  Expire : Int
  Block : Bool
  AutoRetry : Bool
  Retries : Int
  AutoRefresh : Bool
  refreshInterval : Int
  deriving DecidableEq, Repr

/-- RedLock represents a redis lock.  The client is kept abstract: `New` is
defined for an arbitrary client type, so it has no client method to call. -/
structure RedLock (Cli : Type) where
  cli : Cli
  name : String
  id : String
  conf : Config

/-! ## binary32 arithmetic -/

/-- Round a rational to the nearest integer, ties going to the even one. -/
def roundHalfEven (y : ℚ) : ℤ :=
  let f := ⌊y⌋
  if y - f < 1 / 2 then f
  else if 1 / 2 < y - f then f + 1
  else if f % 2 = 0 then f else f + 1

/-- Exponent of the unit in the last place of the binary32 binade of `x`:
24 significant bits for normal numbers, and the fixed exponent `-149` in the
subnormal range. -/
def ulpExp (x : ℚ) : ℤ := max (Int.log 2 |x| - 23) (-149)

/-- Rounding of a rational to binary32, to nearest, ties to even.  The exponent
is not bounded above, so the result is the IEEE one whenever `|x| < 2 ^ 128`;
that covers every value reachable from a Go `int`. -/
def round32 (x : ℚ) : ℚ := roundHalfEven (x / 2 ^ ulpExp x) * 2 ^ ulpExp x

/-- Go conversion `float32(n)` of an `int`. -/
def float32OfInt (n : ℤ) : ℚ := round32 n

/-- Go `a * b` on `float32`. -/
def float32Mul (a b : ℚ) : ℚ := round32 (a * b)

/-- Go `a / b` on `float32` (for `b ≠ 0`). -/
def float32Div (a b : ℚ) : ℚ := round32 (a / b)

/-- Go conversion `int(a)` of a `float32`: the fraction is discarded
(truncation towards zero).  Go leaves the result open when the value does not
fit the `int`; the values converted here are below the expire they come from
(`refreshOf_lt`), so they fit. -/
def intOfFloat32 (a : ℚ) : ℤ := if 0 ≤ a then ⌊a⌋ else ⌈a⌉

/-- The expression `int(float32(expire) * 2 / 3)` of line 74; the untyped
constants `2` and `3` are the binary32 values `2` and `3`. -/
def refreshOf (expire : ℤ) : ℤ :=
  intOfFloat32 (float32Div (float32Mul (float32OfInt expire) 2) 3)

/-! ## The constructor (redlock.go, lines 58-90) -/

/-- New, with its two results `(*RedLock, error)` as a pair of options (`none`
is `nil`).  `rand n` is what `randstr.String(n)` returns in this call. -/
def New {Cli : Type} (rand : Nat → String) (cli : Cli) (name id : String)
    (conf : Config) : Option (RedLock Cli) × Option Err :=
  let conf := if conf.Expire ≤ 0 then { conf with Expire := DefaultLockExpire } else conf
  if conf.Expire < MinLockExpire then
    (none, some Err.ErrLockExpireTooSmall)
  else
    let conf :=
      if conf.AutoRetry = true ∧ conf.Retries ≤ 0 then
        { conf with Retries := DefaultRetryTimes }
      else conf
    let conf :=
      if conf.AutoRefresh = true then
        { conf with refreshInterval := refreshOf conf.Expire }
      else conf
    if name = "" then
      (none, some Err.ErrLockWithoutName)
    else
      let id := if id = "" then rand 18 else id
      (some { cli := cli, name := name, id := id, conf := conf }, none)

/-- The generator used in the examples: `n` copies of the letter `x`. -/
def constRand (n : Nat) : String := String.mk (List.replicate n 'x')

/-- A configuration with every field zero, as a Go caller gets from `Config{}`. -/
def zeroConfig : Config :=
  { Expire := 0, Block := false, AutoRetry := false, Retries := 0,
    AutoRefresh := false, refreshInterval := 0 }

/-- Closed form of the configuration stored by a successful call; `New_eq`
proves that it is what the statements of lines 61-75 compute. -/
def normalised (conf : Config) : Config :=
  { Expire := if conf.Expire ≤ 0 then DefaultLockExpire else conf.Expire
    Block := conf.Block
    AutoRetry := conf.AutoRetry
    Retries :=
      if conf.AutoRetry = true ∧ conf.Retries ≤ 0 then DefaultRetryTimes else conf.Retries
    AutoRefresh := conf.AutoRefresh
    refreshInterval :=
      if conf.AutoRefresh = true then
        refreshOf (if conf.Expire ≤ 0 then DefaultLockExpire else conf.Expire)
      else conf.refreshInterval }

/-- An auto-retrying, auto-refreshing configuration with the minimum expire
and no retry count, as used in the examples. -/
def autoConf : Config :=
  { Expire := 300, Block := false, AutoRetry := true, Retries := 0,
    AutoRefresh := true, refreshInterval := 0 }

/-- The lock that `New` builds from `autoConf` for the name `jobs` and an empty id. -/
def autoLock : RedLock Unit :=
  { cli := (), name := "jobs", id := "xxxxxxxxxxxxxxxxxx",
    conf := { Expire := 300, Block := false, AutoRetry := true, Retries := 3,
              AutoRefresh := true, refreshInterval := 200 } }

/-- An auto-refreshing configuration whose expire is `3 * 2 ^ 22 + 1`. -/
def longConf : Config :=
  { Expire := 12582913, Block := false, AutoRetry := false, Retries := 0,
    AutoRefresh := true, refreshInterval := 0 }

/-- The lock that `New` builds from `longConf` for the name `jobs` and the id `t1`. -/
def longLock : RedLock Unit :=
  { cli := (), name := "jobs", id := "t1",
    conf := { Expire := 12582913, Block := false, AutoRetry := false, Retries := 0,
              AutoRefresh := true, refreshInterval := 8388609 } }

/-! ## The store and the two methods (redlock.go, lines 31-38 and 92-100) -/

/-- A record of the external store: the value kept under a key and its time
to live in milliseconds. -/
structure Record where
  value : String
  ttl : Int
  deriving DecidableEq, Repr

/-- One call of a method of the `RedisClient` interface, with its arguments. -/
inductive ClientCall where
  | SetNX (key value : String) (expiration : Int)
  | Eval (script : String) (keys args : List String)
  | EvalSha (sha1 : String) (keys args : List String)
  | ScriptExists (scripts : List String)
  | ScriptLoad (script : String)
  deriving DecidableEq, Repr

/-- What a method of a lock can act on besides the lock: the store behind the
client, and the log of the client calls issued so far. -/
structure World where
  store : String → Option Record
  calls : List ClientCall

/-- State after a call of a method with receiver `*RedLock`: the lock behind
the pointer, the world, and the error handed to the caller (`none` when the
method hands nothing back). -/
structure Outcome (Cli : Type) where
  lock : RedLock Cli
  world : World
  err : Option Err

/-- Lock: the body is empty (lines 93-95) and the method has no result. -/
def RedLock.Lock {Cli : Type} (rd : RedLock Cli) (w : World) : Outcome Cli :=
  { lock := rd, world := w, err := none }

/-- Unlock: the body is empty (lines 98-100) and the method has no result. -/
def RedLock.Unlock {Cli : Type} (rd : RedLock Cli) (w : World) : Outcome Cli :=
  { lock := rd, world := w, err := none }

/-- RedisClient is a minimal client interface (lines 31-38): each of the five
methods acts on the world and gives its reply with the world it leaves. -/
structure RedisClient where
  SetNX : String → String → Int → World → Bool × World
  Eval : String → List String → List String → World → String × World
  EvalSha : String → List String → List String → World → String × World
  ScriptExists : List String → World → List Bool × World
  ScriptLoad : String → World → String × World

/-- New as a step on the world, statement by statement (lines 59-90): no
statement calls a method of the client, so every path hands the world on as
it got it. -/
def NewIn {Cli : Type} (rand : Nat → String) (cli : Cli) (name id : String)
    (conf : Config) (w : World) : (Option (RedLock Cli) × Option Err) × World :=
  let conf := if conf.Expire ≤ 0 then { conf with Expire := DefaultLockExpire } else conf
  if conf.Expire < MinLockExpire then
    ((none, some Err.ErrLockExpireTooSmall), w)
  else
    let conf :=
      if conf.AutoRetry = true ∧ conf.Retries ≤ 0 then
        { conf with Retries := DefaultRetryTimes }
      else conf
    let conf :=
      if conf.AutoRefresh = true then
        { conf with refreshInterval := refreshOf conf.Expire }
      else conf
    if name = "" then
      ((none, some Err.ErrLockWithoutName), w)
    else
      let id := if id = "" then rand 18 else id
      ((some { cli := cli, name := name, id := id, conf := conf }, none), w)

/-- A client each of whose methods writes itself into the call log; `SetNX`
also stores the value when the key is absent. -/
def loggingClient : RedisClient :=
  { SetNX := fun key value expiration w =>
      match w.store key with
      | some _ =>
        (false, { w with calls := w.calls ++ [ClientCall.SetNX key value expiration] })
      | none =>
        (true,
          { store := fun k =>
              if k = key then some { value := value, ttl := expiration } else w.store k
            calls := w.calls ++ [ClientCall.SetNX key value expiration] })
    Eval := fun script keys args w =>
      ("", { w with calls := w.calls ++ [ClientCall.Eval script keys args] })
    EvalSha := fun sha1 keys args w =>
      ("", { w with calls := w.calls ++ [ClientCall.EvalSha sha1 keys args] })
    ScriptExists := fun scripts w =>
      (scripts.map (fun _ => false),
        { w with calls := w.calls ++ [ClientCall.ScriptExists scripts] })
    ScriptLoad := fun script w =>
      ("", { w with calls := w.calls ++ [ClientCall.ScriptLoad script] }) }

/-- A lock is held in a world when the store has a record under the name of
the lock whose value is the token of the lock. -/
def held {Cli : Type} (rd : RedLock Cli) (w : World) : Bool :=
  match w.store rd.name with
  | some r => r.value == rd.id
  | none => false

/-- The world with an empty store and no client call yet. -/
def emptyWorld : World := { store := fun _ => none, calls := [] }

/-- A world in which the key `jobs` belongs to the token `other`. -/
def otherWorld : World :=
  { store := fun k => if k = "jobs" then some { value := "other", ttl := 300 } else none
    calls := [] }

/-- The lock that `New` builds from `zeroConfig` for the name `jobs` and the id `a`. -/
def lockA : RedLock Unit :=
  { cli := (), name := "jobs", id := "a",
    conf := { Expire := 3000, Block := false, AutoRetry := false, Retries := 0,
              AutoRefresh := false, refreshInterval := 0 } }

/-- The lock that `New` builds from `zeroConfig` for the name `jobs` and the id `b`. -/
def lockB : RedLock Unit :=
  { cli := (), name := "jobs", id := "b",
    conf := { Expire := 3000, Block := false, AutoRetry := false, Retries := 0,
              AutoRefresh := false, refreshInterval := 0 } }

/-! ## Facts about binary32 rounding -/

theorem roundHalfEven_bounds (y : ℚ) :
    y - 1 / 2 ≤ (roundHalfEven y : ℚ) ∧ (roundHalfEven y : ℚ) ≤ y + 1 / 2 := by
  have h1 := Int.floor_le y
  have h2 := Int.lt_floor_add_one y
  unfold roundHalfEven
  simp only
  split_ifs with a b c
  · constructor <;> linarith
  · push_cast; constructor <;> linarith
  · constructor <;> linarith
  · push_cast; constructor <;> linarith

theorem roundHalfEven_intCast (n : ℤ) : roundHalfEven (n : ℚ) = n := by
  unfold roundHalfEven
  simp

theorem ulpExp_of_one_le {x : ℚ} (hx : 1 ≤ x) : ulpExp x = Int.log 2 x - 23 := by
  have h0 : (0 : ℤ) ≤ Int.log 2 x := by
    have := (Int.zpow_le_iff_le_log (b := 2) (by norm_num) (x := 0) (r := x) (by linarith)).1 (by simpa using hx)
    exact this
  unfold ulpExp
  rw [abs_of_nonneg (by linarith)]
  omega

theorem ulp_le {x : ℚ} (hx : 1 ≤ x) : (2 : ℚ) ^ ulpExp x * 2 ^ (23 : ℕ) ≤ x := by
  rw [ulpExp_of_one_le hx]
  have h := Int.zpow_log_le_self (b := 2) (r := x) (by norm_num) (by linarith)
  have : (2 : ℚ) ^ (Int.log 2 x - 23) * 2 ^ (23 : ℕ) = 2 ^ Int.log 2 x := by
    rw [← zpow_natCast, ← zpow_add₀ (by norm_num)]
    congr 1
    push_cast
    ring
  rw [this]
  exact_mod_cast h

theorem round32_rel {x : ℚ} (hx : 1 ≤ x) :
    x * (1 - 1 / 2 ^ 24) ≤ round32 x ∧ round32 x ≤ x * (1 + 1 / 2 ^ 24) := by
  have hu := ulp_le hx
  have hp : (0 : ℚ) < 2 ^ ulpExp x := by positivity
  obtain ⟨h1, h2⟩ := roundHalfEven_bounds (x / 2 ^ ulpExp x)
  unfold round32
  set p : ℚ := 2 ^ ulpExp x with hpdef
  set r : ℚ := (roundHalfEven (x / p) : ℚ) with hr
  have e : x / p * p = x := by field_simp
  constructor
  · nlinarith
  · nlinarith

theorem refreshOf_bounds {e : ℤ} (he : 300 ≤ e) :
    ∃ f : ℚ, refreshOf e = ⌊f⌋ ∧ (e : ℚ) * (6665 / 10000) ≤ f ∧ f ≤ (e : ℚ) * (6667 / 10000) := by
  have hx : (300 : ℚ) ≤ (e : ℚ) := by exact_mod_cast he
  obtain ⟨a1, b1⟩ := round32_rel (x := (e : ℚ)) (by linarith)
  have h1 : (1 : ℚ) ≤ round32 (e : ℚ) * 2 := by
    norm_num at a1 ⊢; linarith
  obtain ⟨a2, b2⟩ := round32_rel h1
  have h2 : (1 : ℚ) ≤ round32 (round32 (e : ℚ) * 2) / 3 := by
    norm_num at a1 a2 ⊢; linarith
  obtain ⟨a3, b3⟩ := round32_rel h2
  refine ⟨round32 (round32 (round32 (e : ℚ) * 2) / 3), ?_, ?_, ?_⟩
  · unfold refreshOf float32Div float32Mul float32OfInt intOfFloat32
    rw [if_pos]
    norm_num at a1 a2 a3 ⊢; linarith
  · norm_num at a1 a2 a3 ⊢; linarith
  · norm_num at b1 b2 b3 ⊢; linarith

theorem refreshOf_lt {e : ℤ} (he : 300 ≤ e) : refreshOf e < e := by
  obtain ⟨f, hf, _, h2⟩ := refreshOf_bounds he
  have hx : (300 : ℚ) ≤ (e : ℚ) := by exact_mod_cast he
  have : ((refreshOf e : ℤ) : ℚ) < (e : ℚ) := by
    rw [hf]
    have := Int.floor_le f
    linarith
  exact_mod_cast this

theorem lt_two_mul_refreshOf {e : ℤ} (he : 300 ≤ e) : e < 2 * refreshOf e := by
  obtain ⟨f, hf, h1, _⟩ := refreshOf_bounds he
  have hx : (300 : ℚ) ≤ (e : ℚ) := by exact_mod_cast he
  have : (e : ℚ) < 2 * ((refreshOf e : ℤ) : ℚ) := by
    rw [hf]
    have := Int.lt_floor_add_one f
    linarith
  exact_mod_cast this

theorem round32_eq_self {x : ℚ} (m : ℤ) (h : x / 2 ^ ulpExp x = m) : round32 x = x := by
  have hp : (2 : ℚ) ^ ulpExp x ≠ 0 := by positivity
  unfold round32
  rw [h, roundHalfEven_intCast, ← h]
  field_simp

theorem ulpExp_le_of_lt {x : ℚ} (hx : 1 ≤ x) (k : ℤ) (h : x < 2 ^ (k + 24)) :
    ulpExp x ≤ k := by
  have hl : Int.log 2 x < k + 24 :=
    (Int.lt_zpow_iff_log_lt (b := 2) (by norm_num) (by linarith)).1 (by exact_mod_cast h)
  rw [ulpExp_of_one_le hx]
  omega

theorem round32_intCast {n : ℤ} (hn : 1 ≤ n) (j : ℕ) (hlt : n < 2 ^ (j + 24))
    (hdvd : (2 : ℤ) ^ j ∣ n) : round32 (n : ℚ) = n := by
  have hx : (1 : ℚ) ≤ (n : ℚ) := by exact_mod_cast hn
  have hle : ulpExp (n : ℚ) ≤ j := by
    apply ulpExp_le_of_lt hx
    have : (n : ℚ) < ((2 ^ (j + 24) : ℤ) : ℚ) := by exact_mod_cast hlt
    rw [← Nat.cast_ofNat (R := ℤ), ← Nat.cast_add, zpow_natCast]
    simpa using this
  obtain ⟨m, hm⟩ := hdvd
  obtain ⟨k, hk⟩ := Int.eq_ofNat_of_zero_le (sub_nonneg.mpr hle)
  apply round32_eq_self (m * 2 ^ k)
  generalize ulpExp (n : ℚ) = e at hk ⊢
  have hj : (j : ℤ) = e + k := by omega
  have hp : (2 : ℚ) ^ e ≠ 0 := by positivity
  have hn2 : (n : ℚ) = 2 ^ e * 2 ^ k * m := by
    rw [hm]
    push_cast
    rw [← zpow_natCast (2 : ℚ) j, hj, zpow_add₀ (by norm_num), zpow_natCast]
  rw [hn2]
  push_cast
  field_simp
  ring

theorem floor_round32_of_between {x : ℚ} {q : ℤ} (hq : 1 ≤ q) (hlt : q < 2 ^ 23)
    (h1 : (q : ℚ) + 1 / 3 ≤ x) (h2 : x ≤ (q : ℚ) + 2 / 3) : ⌊round32 x⌋ = q := by
  have hq1 : (1 : ℚ) ≤ (q : ℚ) := by exact_mod_cast hq
  have hq2 : (q : ℚ) + 1 ≤ 2 ^ 23 := by exact_mod_cast (Int.add_one_le_iff.mpr hlt)
  have hx : (1 : ℚ) ≤ x := by linarith
  have he : ulpExp x ≤ -1 := by
    apply ulpExp_le_of_lt hx
    norm_num
    norm_num at hq2
    linarith
  obtain ⟨hb1, hb2⟩ := roundHalfEven_bounds (x / 2 ^ ulpExp x)
  unfold round32
  generalize ulpExp x = e at he hb1 hb2 ⊢
  obtain ⟨k, hk⟩ := Int.eq_ofNat_of_zero_le (show (0 : ℤ) ≤ -1 - e by omega)
  have hek : e = -((k : ℤ) + 1) := by omega
  have hs : (2 : ℚ) ^ e = 1 / (2 * 2 ^ k) := by
    rw [hek, zpow_neg, ← Nat.cast_succ, zpow_natCast, pow_succ]
    field_simp
    ring
  have hk1 : (1 : ℚ) ≤ 2 ^ k := one_le_pow₀ (by norm_num)
  rw [hs] at hb1 hb2 ⊢
  generalize roundHalfEven (x / (1 / (2 * 2 ^ k))) = m at hb1 hb2 ⊢
  have hxs : x / (1 / (2 * 2 ^ k)) = x * (2 * 2 ^ k) := by field_simp
  rw [hxs] at hb1 hb2
  have hpos : (0 : ℚ) < 2 * 2 ^ k := by positivity
  have lo : (q : ℚ) * (2 * 2 ^ k) - 1 < (m : ℚ) := by nlinarith
  have hi : (m : ℚ) < ((q : ℚ) + 1) * (2 * 2 ^ k) := by nlinarith
  have lo2 : q * (2 * 2 ^ k) - 1 < m := by exact_mod_cast lo
  have hi2 : m < (q + 1) * (2 * 2 ^ k) := by exact_mod_cast hi
  have lo3 : (q : ℚ) * (2 * 2 ^ k) ≤ (m : ℚ) := by
    have : q * (2 * 2 ^ k) ≤ m := by omega
    exact_mod_cast this
  have hi3 : (m : ℚ) ≤ ((q : ℚ) + 1) * (2 * 2 ^ k) - 1 := by
    have : m ≤ (q + 1) * (2 * 2 ^ k) - 1 := by omega
    exact_mod_cast this
  rw [Int.floor_eq_iff]
  constructor
  · rw [mul_one_div, le_div_iff₀ hpos]
    exact lo3
  · rw [mul_one_div, div_lt_iff₀ hpos]
    linarith

theorem floor_round32_div_three {n : ℤ} (h3 : 3 ≤ n) (hle : n ≤ 3 * 2 ^ 23) :
    ⌊round32 ((n : ℚ) / 3)⌋ = n / 3 := by
  have hdm := Int.ediv_add_emod n 3
  have hr0 := Int.emod_nonneg n (show (3 : ℤ) ≠ 0 by norm_num)
  have hr3 := Int.emod_lt_of_pos n (show (0 : ℤ) < 3 by norm_num)
  have hq : 1 ≤ n / 3 := by omega
  have hx : (n : ℚ) / 3 = ((n / 3 : ℤ) : ℚ) + ((n % 3 : ℤ) : ℚ) / 3 := by
    have : (n : ℚ) = 3 * ((n / 3 : ℤ) : ℚ) + ((n % 3 : ℤ) : ℚ) := by exact_mod_cast hdm.symm
    linarith
  by_cases hr : n % 3 = 0
  · rw [hx, hr]
    simp only [Int.cast_zero, zero_div, add_zero]
    rw [round32_intCast hq 0 (by norm_num; omega) (by simp), Int.floor_intCast]
  · have hr1 : (1 : ℚ) ≤ ((n % 3 : ℤ) : ℚ) := by
      have : 1 ≤ n % 3 := by omega
      exact_mod_cast this
    have hr2 : ((n % 3 : ℤ) : ℚ) ≤ 2 := by
      have : n % 3 ≤ 2 := by omega
      exact_mod_cast this
    apply floor_round32_of_between hq (by norm_num; omega)
    · rw [hx]; linarith
    · rw [hx]; linarith

theorem refreshOf_eq_floor {e : ℤ} (h1 : 2 ≤ e) (h2 : e ≤ 12582912) :
    refreshOf e = 2 * e / 3 := by
  have hx : (1 : ℚ) ≤ (e : ℚ) := by
    have : 1 ≤ e := by omega
    exact_mod_cast this
  unfold refreshOf float32Div float32Mul float32OfInt intOfFloat32
  rw [round32_intCast (by omega) 0 (by norm_num; omega) (by simp)]
  have e2 : (e : ℚ) * 2 = ((2 * e : ℤ) : ℚ) := by push_cast; ring
  rw [e2, round32_intCast (by omega) 1 (by norm_num; omega) (by simp)]
  have hf := floor_round32_div_three (n := 2 * e) (by omega) (by norm_num; omega)
  rw [if_pos, hf]
  have := Int.floor_nonneg.1 (show 0 ≤ ⌊round32 (((2 * e : ℤ) : ℚ) / 3)⌋ by rw [hf]; omega)
  exact this

theorem roundHalfEven_eq_of {y : ℚ} {m : ℤ} (h1 : (m : ℚ) - 1 / 2 < y)
    (h2 : y < (m : ℚ) + 1 / 2) : roundHalfEven y = m := by
  obtain ⟨b1, b2⟩ := roundHalfEven_bounds y
  have lo : ((m - 1 : ℤ) : ℚ) < (roundHalfEven y : ℚ) := by push_cast; linarith
  have hi : (roundHalfEven y : ℚ) < ((m + 1 : ℤ) : ℚ) := by push_cast; linarith
  have lo2 : m - 1 < roundHalfEven y := by exact_mod_cast lo
  have hi2 : roundHalfEven y < m + 1 := by exact_mod_cast hi
  omega

theorem ulpExp_eq {x : ℚ} (hx : 1 ≤ x) (k : ℤ) (h1 : (2 : ℚ) ^ (k + 23) ≤ x)
    (h2 : x < 2 ^ (k + 24)) : ulpExp x = k := by
  have hu := ulpExp_le_of_lt hx k h2
  have hl : k + 23 ≤ Int.log 2 x :=
    (Int.zpow_le_iff_le_log (b := 2) (by norm_num) (by linarith)).1 (by exact_mod_cast h1)
  rw [ulpExp_of_one_le hx] at hu ⊢
  omega

theorem refreshOf_12582913 : refreshOf 12582913 = 8388609 := by
  unfold refreshOf float32Div float32Mul float32OfInt intOfFloat32
  rw [round32_intCast (by norm_num) 0 (by norm_num) (by simp)]
  have e2 : ((12582913 : ℤ) : ℚ) * 2 = ((25165826 : ℤ) : ℚ) := by norm_num
  rw [e2, round32_intCast (by norm_num) 1 (by norm_num) (by norm_num)]
  have h3 : round32 (((25165826 : ℤ) : ℚ) / 3) = ((8388609 : ℤ) : ℚ) := by
    unfold round32
    rw [ulpExp_eq (by norm_num) 0 (by norm_num) (by norm_num),
      roundHalfEven_eq_of (m := 8388609) (by norm_num) (by norm_num)]
    norm_num
  rw [h3, if_pos (by norm_num), Int.floor_intCast]

/-! ## Facts about `New` shared by the results below -/

/-- The three outcomes of `New`, in the order in which the code decides them. -/
theorem New_eq {Cli : Type} (rand : Nat → String) (cli : Cli) (name id : String)
    (conf : Config) :
    New rand cli name id conf =
      if 0 < conf.Expire ∧ conf.Expire < MinLockExpire then
        (none, some Err.ErrLockExpireTooSmall)
      else if name = "" then (none, some Err.ErrLockWithoutName)
      else
        (some { cli := cli, name := name, id := if id = "" then rand 18 else id,
                conf := normalised conf }, none) := by
  have hd : ¬ (DefaultLockExpire < MinLockExpire) := by decide
  obtain ⟨e, b, ar, r, af, ri⟩ := conf
  by_cases he : e ≤ 0 <;> by_cases hm : e < MinLockExpire <;>
    by_cases hr : (ar = true ∧ r ≤ 0) <;> by_cases ha : af = true <;>
    by_cases hn : name = "" <;>
    simp [New, normalised, he, hm, hr, ha, hn, hd, not_lt.mpr, not_le.mp]

/-- A successful call: the name is not empty, the expire is not in the rejected
range, and the lock holds the client, the name, the token and the normalised
configuration. -/
theorem New_success {Cli : Type} {rand : Nat → String} {cli : Cli}
    {name id : String} {conf : Config} {l : RedLock Cli}
    (h : (New rand cli name id conf).1 = some l) :
    name ≠ "" ∧ ¬ (0 < conf.Expire ∧ conf.Expire < MinLockExpire) ∧
    l = { cli := cli, name := name, id := if id = "" then rand 18 else id,
          conf := normalised conf } := by
  rw [New_eq] at h
  by_cases h1 : 0 < conf.Expire ∧ conf.Expire < MinLockExpire
  · rw [if_pos h1] at h
    exact absurd h (by simp)
  · rw [if_neg h1] at h
    by_cases h2 : name = ""
    · rw [if_pos h2] at h
      exact absurd h (by simp)
    · rw [if_neg h2] at h
      exact ⟨h2, h1, (Option.some.inj h).symm⟩

/-- A call with a non-empty name and an expire outside the rejected range
succeeds with the normalised configuration. -/
theorem New_valid {Cli : Type} (rand : Nat → String) (cli : Cli)
    {name : String} (id : String) {conf : Config} (hn : name ≠ "")
    (he : conf.Expire ≤ 0 ∨ MinLockExpire ≤ conf.Expire) :
    New rand cli name id conf =
      (some { cli := cli, name := name, id := if id = "" then rand 18 else id,
              conf := normalised conf }, none) := by
  have h1 : ¬ (0 < conf.Expire ∧ conf.Expire < MinLockExpire) := by
    rintro ⟨a, b⟩
    rcases he with he | he <;> omega
  rw [New_eq, if_neg h1, if_neg hn]

/-- The world version of `New` gives the outcome of `New` and the world it got. -/
theorem NewIn_eq {Cli : Type} (rand : Nat → String) (cli : Cli) (name id : String)
    (conf : Config) (w : World) :
    NewIn rand cli name id conf w = (New rand cli name id conf, w) := by
  unfold NewIn New
  simp only
  split_ifs <;> rfl

/-- The expire stored by a successful call is at least the minimum. -/
theorem normalised_expire_ge {conf : Config}
    (h : ¬ (0 < conf.Expire ∧ conf.Expire < MinLockExpire)) :
    MinLockExpire ≤ (normalised conf).Expire := by
  unfold normalised MinLockExpire DefaultLockExpire at *
  simp only
  split_ifs with h0
  · norm_num
  · omega

theorem floor_two_thirds (e : ℤ) : ⌊(2 * (e : ℚ)) / 3⌋ = 2 * e / 3 := by
  have h := Rat.floor_intCast_div_natCast (2 * e) 3
  push_cast at h
  exact h

theorem New_autoConf : New constRand () "jobs" "" autoConf = (some autoLock, none) := by
  rw [New_valid constRand () "" (by decide) (Or.inr (by decide))]
  have hr : refreshOf 300 = 200 := by
    rw [refreshOf_eq_floor (by norm_num) (by norm_num)]
    norm_num
  simp [normalised, autoConf, autoLock, constRand, hr, DefaultRetryTimes]

theorem New_longConf : New constRand () "jobs" "t1" longConf = (some longLock, none) := by
  rw [New_valid constRand () "t1" (by decide) (Or.inr (by decide))]
  simp [normalised, longConf, longLock, refreshOf_12582913]

/-! ## The claims -/

/-- C1: an expire that is positive but below `MinLockExpire` (300) makes `New`
return a nil lock and `ErrLockExpireTooSmall`, for every client, name (empty
or not), id and other configuration fields; the value is neither clamped nor
replaced by the default. -/
theorem New_expire_too_small {Cli : Type} (rand : Nat → String) (cli : Cli)
    (name id : String) (conf : Config) (h0 : 0 < conf.Expire)
    (h1 : conf.Expire < MinLockExpire) :
    New rand cli name id conf = (none, some Err.ErrLockExpireTooSmall) := by
  rw [New_eq, if_pos ⟨h0, h1⟩]

/-- Witness of C1: expire 299 with an empty name and an empty id. -/
theorem New_expire_too_small_witness :
    (0 : ℤ) < ({ zeroConfig with Expire := 299 } : Config).Expire ∧
    ({ zeroConfig with Expire := 299 } : Config).Expire < MinLockExpire ∧
    New constRand () "" "" { zeroConfig with Expire := 299 } =
      (none, some Err.ErrLockExpireTooSmall) :=
  ⟨by decide, by decide,
    New_expire_too_small constRand () "" "" { zeroConfig with Expire := 299 }
      (by decide) (by decide)⟩

/-- Counterexample to C2 as stated: with an empty name and expire 100 the
error is `ErrLockExpireTooSmall`, not `ErrLockWithoutName`. -/
theorem New_empty_name_counterexample :
    New constRand () "" "" { zeroConfig with Expire := 100 } =
      (none, some Err.ErrLockExpireTooSmall) ∧
    New constRand () "" "" { zeroConfig with Expire := 100 } ≠
      (none, some Err.ErrLockWithoutName) := by
  have h : New constRand () "" "" { zeroConfig with Expire := 100 } =
      (none, some Err.ErrLockExpireTooSmall) := by
    rw [New_eq, if_pos ⟨by decide, by decide⟩]
  refine ⟨h, ?_⟩
  rw [h]
  simp

/-- C2 (amended): with an empty name `New` never returns a lock; the error is
`ErrLockWithoutName` when the expire is outside the rejected range
`0 < Expire < 300`, and `ErrLockExpireTooSmall` inside it, because the expire
check comes first. -/
theorem New_empty_name {Cli : Type} (rand : Nat → String) (cli : Cli)
    (name id : String) (conf : Config) (hn : name = "") :
    New rand cli name id conf =
      (none, some (if 0 < conf.Expire ∧ conf.Expire < MinLockExpire then
        Err.ErrLockExpireTooSmall else Err.ErrLockWithoutName)) := by
  rw [New_eq]
  by_cases h : 0 < conf.Expire ∧ conf.Expire < MinLockExpire
  · rw [if_pos h, if_pos h]
  · rw [if_neg h, if_neg h, if_pos hn]

/-- Witness of C2 (amended): the empty name with the zero configuration. -/
theorem New_empty_name_witness :
    ("" : String) = "" ∧
    New constRand () "" "tok" zeroConfig =
      (none, some (if 0 < zeroConfig.Expire ∧ zeroConfig.Expire < MinLockExpire then
        Err.ErrLockExpireTooSmall else Err.ErrLockWithoutName)) :=
  ⟨rfl, New_empty_name constRand () "" "tok" zeroConfig rfl⟩

/-- C3: with `conf.Expire <= 0` and a non-empty name `New` succeeds (a lock and
no error) and the stored configuration has `Expire = 3000`
(`DefaultLockExpire`). -/
theorem New_default_expire {Cli : Type} (rand : Nat → String) (cli : Cli)
    (name id : String) (conf : Config) (he : conf.Expire ≤ 0) (hn : name ≠ "") :
    ∃ l : RedLock Cli, New rand cli name id conf = (some l, none) ∧
      l.conf.Expire = 3000 ∧ l.conf.Expire = DefaultLockExpire := by
  refine ⟨_, New_valid rand cli id hn (Or.inl he), ?_, ?_⟩ <;>
    simp [normalised, he, DefaultLockExpire]

/-- Witness of C3: expire -5 and the name `jobs`. -/
theorem New_default_expire_witness :
    ({ zeroConfig with Expire := -5 } : Config).Expire ≤ 0 ∧ "jobs" ≠ "" ∧
    ∃ l : RedLock Unit,
      New constRand () "jobs" "tok" { zeroConfig with Expire := -5 } = (some l, none) ∧
      l.conf.Expire = 3000 ∧ l.conf.Expire = DefaultLockExpire :=
  ⟨by decide, by decide,
    New_default_expire constRand () "jobs" "tok" { zeroConfig with Expire := -5 }
      (by decide) (by decide)⟩

/-- C4: when `New` succeeds with `AutoRetry = true` and `Retries <= 0`, the
stored configuration has `Retries = 3` (`DefaultRetryTimes`); and the error
result of `New` does not depend on the retry fields at all, so a missing retry
count is never reported as an error. -/
theorem New_default_retries {Cli : Type} (rand : Nat → String) (cli : Cli)
    (name id : String) (conf : Config) (l : RedLock Cli)
    (h : New rand cli name id conf = (some l, none))
    (ha : conf.AutoRetry = true) (hr : conf.Retries ≤ 0) :
    l.conf.Retries = 3 ∧ l.conf.Retries = DefaultRetryTimes ∧
    ∀ (a : Bool) (r : Int),
      (New rand cli name id { conf with AutoRetry := a, Retries := r }).2 = none := by
  obtain ⟨hn, he, hl⟩ := New_success (congrArg Prod.fst h)
  subst hl
  refine ⟨?_, ?_, ?_⟩
  · simp [normalised, ha, hr, DefaultRetryTimes]
  · simp [normalised, ha, hr]
  · intro a r
    rw [New_eq, if_neg he, if_neg hn]

/-- Witness of C4: `autoConf` has `AutoRetry = true` and `Retries = 0`. -/
theorem New_default_retries_witness :
    New constRand () "jobs" "" autoConf = (some autoLock, none) ∧
    autoConf.AutoRetry = true ∧ autoConf.Retries ≤ 0 ∧
    autoLock.conf.Retries = 3 ∧ autoLock.conf.Retries = DefaultRetryTimes ∧
    ∀ (a : Bool) (r : Int),
      (New constRand () "jobs" "" { autoConf with AutoRetry := a, Retries := r }).2 = none :=
  ⟨New_autoConf, rfl, by decide,
    New_default_retries constRand () "jobs" "" autoConf autoLock New_autoConf rfl
      (by decide)⟩

/-- Counterexample to C5 as stated: for `Expire = 12582913` the stored
`refreshInterval` is `8388609`, while the floor of two-thirds of the expire is
`8388608`.  `float32(12582913)` is exact (below `2 ^ 24`), times 2 is `25165826`
(exact), and `25165826 / 3 = 8388608.66..` lies in the binade from `2 ^ 23` on,
where binary32 values are the integers, so it rounds to `8388609`. -/
theorem New_refresh_floor_counterexample :
    New constRand () "jobs" "t1" longConf = (some longLock, none) ∧
    longConf.AutoRefresh = true ∧ MinLockExpire ≤ longConf.Expire ∧
    longLock.conf.refreshInterval = 8388609 ∧
    ⌊(2 * (longLock.conf.Expire : ℚ)) / 3⌋ = 8388608 ∧
    longLock.conf.refreshInterval ≠ ⌊(2 * (longLock.conf.Expire : ℚ)) / 3⌋ := by
  refine ⟨New_longConf, rfl, by decide, rfl, ?_, ?_⟩
  · rw [floor_two_thirds]; decide
  · rw [floor_two_thirds]; decide

/-- C5 (amended): when `New` succeeds with `AutoRefresh = true`, the stored
expire is the normalised one (3000 for an input `<= 0`, the input otherwise)
and the stored `refreshInterval` is `int(float32(Expire) * 2 / 3)` of it, for
every accepted expire; and for every accepted expire up to `12582912` (that is
`3 * 2 ^ 22`; the default 3000 included) this is the integer floor of
two-thirds of it. -/
theorem New_refresh_floor {Cli : Type} (rand : Nat → String) (cli : Cli)
    (name id : String) (conf : Config) (l : RedLock Cli)
    (h : New rand cli name id conf = (some l, none))
    (ha : conf.AutoRefresh = true) :
    l.conf.Expire = (if conf.Expire ≤ 0 then DefaultLockExpire else conf.Expire) ∧
    l.conf.refreshInterval =
      intOfFloat32 (float32Div (float32Mul (float32OfInt l.conf.Expire) 2) 3) ∧
    l.conf.refreshInterval = refreshOf l.conf.Expire ∧
    (conf.Expire ≤ 12582912 →
      l.conf.refreshInterval = ⌊(2 * (l.conf.Expire : ℚ)) / 3⌋) := by
  obtain ⟨_, he, hl⟩ := New_success (congrArg Prod.fst h)
  subst hl
  have hge := normalised_expire_ge he
  have hri : (normalised conf).refreshInterval = refreshOf (normalised conf).Expire := by
    simp [normalised, ha]
  refine ⟨rfl, hri, hri, ?_⟩
  intro hb
  have hle : (normalised conf).Expire ≤ 12582912 := by
    unfold normalised DefaultLockExpire
    simp only
    split_ifs
    · norm_num
    · exact hb
  unfold MinLockExpire at hge
  rw [hri, floor_two_thirds, refreshOf_eq_floor (by omega) hle]

/-- Witness of C5 (amended): `autoConf`, expire 300, refresh interval 200, the
floor of two-thirds of 300. -/
theorem New_refresh_floor_witness :
    New constRand () "jobs" "" autoConf = (some autoLock, none) ∧
    autoConf.AutoRefresh = true ∧ autoConf.Expire ≤ 12582912 ∧
    autoLock.conf.Expire =
      (if autoConf.Expire ≤ 0 then DefaultLockExpire else autoConf.Expire) ∧
    autoLock.conf.refreshInterval =
      intOfFloat32 (float32Div (float32Mul (float32OfInt autoLock.conf.Expire) 2) 3) ∧
    autoLock.conf.refreshInterval = refreshOf autoLock.conf.Expire ∧
    autoLock.conf.refreshInterval = ⌊(2 * (autoLock.conf.Expire : ℚ)) / 3⌋ :=
  have hw := New_refresh_floor constRand () "jobs" "" autoConf autoLock New_autoConf rfl
  ⟨New_autoConf, rfl, by decide, hw.1, hw.2.1, hw.2.2.1, hw.2.2.2 (by decide)⟩

/-- C6: every lock returned by a successful `New` has `Expire >= 300`
(`MinLockExpire`) and, whenever its `AutoRetry` is true, `Retries > 0`. -/
theorem New_config_invariant {Cli : Type} (rand : Nat → String) (cli : Cli)
    (name id : String) (conf : Config) (l : RedLock Cli)
    (h : New rand cli name id conf = (some l, none)) :
    MinLockExpire ≤ l.conf.Expire ∧ 300 ≤ l.conf.Expire ∧
    (l.conf.AutoRetry = true → 0 < l.conf.Retries) := by
  obtain ⟨_, he, hl⟩ := New_success (congrArg Prod.fst h)
  subst hl
  have hge := normalised_expire_ge he
  refine ⟨hge, hge, ?_⟩
  intro ha
  have ha2 : conf.AutoRetry = true := ha
  unfold normalised DefaultRetryTimes
  simp only
  split_ifs with hr
  · norm_num
  · have : ¬ conf.Retries ≤ 0 := fun hc => hr ⟨ha2, hc⟩
    omega

/-- Witness of C6: the lock built from `autoConf`. -/
theorem New_config_invariant_witness :
    New constRand () "jobs" "" autoConf = (some autoLock, none) ∧
    MinLockExpire ≤ autoLock.conf.Expire ∧ 300 ≤ autoLock.conf.Expire ∧
    (autoLock.conf.AutoRetry = true → 0 < autoLock.conf.Retries) :=
  ⟨New_autoConf,
    New_config_invariant constRand () "jobs" "" autoConf autoLock New_autoConf⟩

/-- C7: every lock returned by a successful `New` with `AutoRefresh = true` has
`refreshInterval < Expire`, for every accepted expire (no upper bound is
needed, so in particular for the largest Go ints, where binary32 rounding
applies). -/
theorem New_refresh_lt_expire {Cli : Type} (rand : Nat → String) (cli : Cli)
    (name id : String) (conf : Config) (l : RedLock Cli)
    (h : New rand cli name id conf = (some l, none))
    (ha : conf.AutoRefresh = true) :
    l.conf.refreshInterval < l.conf.Expire := by
  obtain ⟨_, he, hl⟩ := New_success (congrArg Prod.fst h)
  subst hl
  have hge := normalised_expire_ge he
  have hri : (normalised conf).refreshInterval = refreshOf (normalised conf).Expire := by
    simp [normalised, ha]
  rw [hri]
  exact refreshOf_lt hge

/-- Witness of C7: the lock built from `longConf`, whose interval is rounded. -/
theorem New_refresh_lt_expire_witness :
    New constRand () "jobs" "t1" longConf = (some longLock, none) ∧
    longConf.AutoRefresh = true ∧
    longLock.conf.refreshInterval < longLock.conf.Expire :=
  ⟨New_longConf, rfl,
    New_refresh_lt_expire constRand () "jobs" "t1" longConf longLock New_longConf rfl⟩

/-- Counterexample to C8 as stated: for `Expire = 300` the interval is 200, and
`2 * 200 = 400` is not below 300. -/
theorem New_missed_refresh_counterexample :
    New constRand () "jobs" "" autoConf = (some autoLock, none) ∧
    autoConf.AutoRefresh = true ∧
    autoLock.conf.refreshInterval = 200 ∧ autoLock.conf.Expire = 300 ∧
    ¬ (2 * autoLock.conf.refreshInterval < autoLock.conf.Expire) :=
  ⟨New_autoConf, rfl, rfl, rfl, by decide⟩

/-- C8 (amended): for every lock returned by a successful `New` with
`AutoRefresh = true`, the first scheduled refresh falls inside the lease
granted at acquisition and the second one falls after its end:
`refreshInterval < Expire < 2 * refreshInterval`. -/
theorem New_second_refresh_after_expire {Cli : Type} (rand : Nat → String) (cli : Cli)
    (name id : String) (conf : Config) (l : RedLock Cli)
    (h : New rand cli name id conf = (some l, none))
    (ha : conf.AutoRefresh = true) :
    l.conf.refreshInterval < l.conf.Expire ∧
    l.conf.Expire < 2 * l.conf.refreshInterval := by
  obtain ⟨_, he, hl⟩ := New_success (congrArg Prod.fst h)
  subst hl
  have hge := normalised_expire_ge he
  have hri : (normalised conf).refreshInterval = refreshOf (normalised conf).Expire := by
    simp [normalised, ha]
  rw [hri]
  exact ⟨refreshOf_lt hge, lt_two_mul_refreshOf hge⟩

/-- Witness of C8 (amended): expire 300, interval 200. -/
theorem New_second_refresh_after_expire_witness :
    New constRand () "jobs" "" autoConf = (some autoLock, none) ∧
    autoConf.AutoRefresh = true ∧
    autoLock.conf.refreshInterval < autoLock.conf.Expire ∧
    autoLock.conf.Expire < 2 * autoLock.conf.refreshInterval :=
  ⟨New_autoConf, rfl,
    New_second_refresh_after_expire constRand () "jobs" "" autoConf autoLock
      New_autoConf rfl⟩

/-- C9: a lock returned by a successful `New` has the given name and client;
its token is the given id when that is non-empty, and otherwise exactly what
the generator returned for 18 characters, so it is non-empty as soon as the
generator returns a string of the requested length. -/
theorem New_identity {Cli : Type} (rand : Nat → String) (cli : Cli)
    (name id : String) (conf : Config) (l : RedLock Cli)
    (h : New rand cli name id conf = (some l, none)) :
    l.name = name ∧ l.cli = cli ∧ (id ≠ "" → l.id = id) ∧
    (id = "" → l.id = rand 18) ∧ ((rand 18).length = 18 → l.id ≠ "") := by
  obtain ⟨_, _, hl⟩ := New_success (congrArg Prod.fst h)
  subst hl
  refine ⟨rfl, rfl, ?_, ?_, ?_⟩
  · intro hid
    simp [hid]
  · intro hid
    simp [hid]
  · intro hlen
    by_cases hid : id = ""
    · simp only [hid, if_true]
      intro hc
      rw [hc] at hlen
      exact absurd hlen (by decide)
    · simp [hid]

/-- Witness of C9: an empty id, the generator returning eighteen letters. -/
theorem New_identity_witness :
    New constRand () "jobs" "" autoConf = (some autoLock, none) ∧
    autoLock.name = "jobs" ∧ autoLock.cli = () ∧ (("" : String) ≠ "" → autoLock.id = "") ∧
    (("" : String) = "" → autoLock.id = constRand 18) ∧
    ((constRand 18).length = 18 → autoLock.id ≠ "") :=
  ⟨New_autoConf, New_identity constRand () "jobs" "" autoConf autoLock New_autoConf⟩

/-- C10: construction performs no store I/O and does not depend on the
client.  On every path of `New` (success, `ErrLockExpireTooSmall`,
`ErrLockWithoutName`), for every client, the call log and the store are what
they were before the call: no method of the client is invoked, also for a
`RedisClient` whose methods would write to the log and the store.  The error
is decided by the name and the expire alone, the lock holds the given name,
the token and the normalised configuration, so both are the same for any two
clients, even of different types; the client only ends up in the `cli`
field. -/
theorem New_client_independent {A B : Type} (rand : Nat → String) (ca : A) (cb : B)
    (name id : String) (conf : Config) (w : World) :
    ((NewIn rand ca name id conf w).2 = w ∧
      (NewIn rand ca name id conf w).2.calls = w.calls ∧
      (NewIn rand ca name id conf w).2.store = w.store) ∧
    (∀ rc : RedisClient, (NewIn rand rc name id conf w).2 = w) ∧
    ((NewIn rand loggingClient name id conf w).2.calls = w.calls ∧
      (NewIn rand loggingClient name id conf w).2.store = w.store) ∧
    (NewIn rand ca name id conf w).1 = New rand ca name id conf ∧
    (New rand ca name id conf).2 =
      (if 0 < conf.Expire ∧ conf.Expire < MinLockExpire then
        some Err.ErrLockExpireTooSmall
      else if name = "" then some Err.ErrLockWithoutName else none) ∧
    (New rand ca name id conf).1 =
      (if (0 < conf.Expire ∧ conf.Expire < MinLockExpire) ∨ name = "" then none
      else
        some { cli := ca, name := name, id := if id = "" then rand 18 else id,
               conf := normalised conf }) ∧
    (New rand ca name id conf).2 = (New rand cb name id conf).2 ∧
    (New rand ca name id conf).1.map (fun l => (l.name, l.id, l.conf)) =
      (New rand cb name id conf).1.map (fun l => (l.name, l.id, l.conf)) ∧
    (∀ l : RedLock A, (New rand ca name id conf).1 = some l → l.cli = ca) := by
  have hw : ∀ (C : Type) (c : C), (NewIn rand c name id conf w).2 = w := by
    intro C c
    rw [NewIn_eq]
  refine ⟨⟨hw A ca, by rw [hw A ca], by rw [hw A ca]⟩, fun rc => hw _ rc,
    ⟨by rw [hw _ loggingClient], by rw [hw _ loggingClient]⟩, by rw [NewIn_eq], ?_⟩
  rw [New_eq, New_eq]
  by_cases h1 : 0 < conf.Expire ∧ conf.Expire < MinLockExpire
  · simp [if_pos h1, h1]
  · by_cases h2 : name = ""
    · simp [if_neg h1, h1, if_pos h2, h2]
    · have h3 : ¬ ((0 < conf.Expire ∧ conf.Expire < MinLockExpire) ∨ name = "") := by
        rintro (h | h)
        · exact h1 h
        · exact h2 h
      simp only [if_neg h1, if_neg h2, if_neg h3, Option.map_some', true_and]
      intro l hl
      rw [← Option.some.inj hl]

/-! ## Facts shared by the claims on the methods and on normalisation -/

theorem New_lockA : New constRand () "jobs" "a" zeroConfig = (some lockA, none) := by
  rw [New_valid constRand () "a" (by decide) (Or.inl (by decide))]
  simp [normalised, zeroConfig, lockA, DefaultLockExpire]

theorem New_lockB : New constRand () "jobs" "b" zeroConfig = (some lockB, none) := by
  rw [New_valid constRand () "b" (by decide) (Or.inl (by decide))]
  simp [normalised, zeroConfig, lockB, DefaultLockExpire]

theorem refreshOf_ge {e : ℤ} (he : 300 ≤ e) : 200 ≤ refreshOf e := by
  by_cases hs : e ≤ 12582912
  · rw [refreshOf_eq_floor (by omega) hs]
    omega
  · obtain ⟨f, hf, h1, _⟩ := refreshOf_bounds he
    have hx : (12582913 : ℚ) ≤ (e : ℚ) := by
      have : 12582913 ≤ e := by omega
      exact_mod_cast this
    have : (200 : ℚ) < ((refreshOf e : ℤ) : ℚ) := by
      rw [hf]
      have := Int.lt_floor_add_one f
      linarith
    have h2 : 200 < refreshOf e := by exact_mod_cast this
    omega

theorem normalised_idem {conf : Config}
    (h : ¬ (0 < conf.Expire ∧ conf.Expire < MinLockExpire)) :
    normalised (normalised conf) = normalised conf := by
  have hge := normalised_expire_ge h
  obtain ⟨e, b, ar, r, af, ri⟩ := conf
  unfold MinLockExpire at hge h
  simp only [normalised] at hge ⊢
  have h1 : ¬ ((if e ≤ 0 then DefaultLockExpire else e) ≤ 0) := by omega
  have h2 : ¬ (ar = true ∧
      (if ar = true ∧ r ≤ 0 then DefaultRetryTimes else r) ≤ 0) := by
    rintro ⟨ha, hr⟩
    by_cases hc : ar = true ∧ r ≤ 0
    · rw [if_pos hc] at hr
      exact absurd hr (by decide)
    · rw [if_neg hc] at hr
      exact hc ⟨ha, hr⟩
  simp only [if_neg h1, if_neg h2]
  by_cases ha : af = true
  · simp only [if_pos ha]
  · simp only [if_neg ha]

/-- Two locks of the same name that are both held in one world have the same
token: the store keeps one value under a key. -/
theorem held_same_token {A B : Type} (ra : RedLock A) (rb : RedLock B) (w : World)
    (hn : ra.name = rb.name) (ha : held ra w = true) (hb : held rb w = true) :
    ra.id = rb.id := by
  unfold held at ha hb
  rw [hn] at ha
  cases hs : w.store rb.name with
  | none => simp [hs] at ha
  | some r =>
    simp only [hs, beq_iff_eq] at ha hb
    rw [← ha, ← hb]

/-! ## The claims on the methods and on the whole of `New` -/

/-- C11, the code at the failing input: `Lock()` on a lock built by `New`, in a
store where the key of the lock is absent, leaves the key absent; no record
with the token and the expire of the lock is written, and the lock is not
held afterwards. -/
theorem Lock_leaves_key_absent :
    New constRand () "jobs" "a" zeroConfig = (some lockA, none) ∧
    emptyWorld.store lockA.name = none ∧
    (lockA.Lock emptyWorld).world.store lockA.name = none ∧
    (lockA.Lock emptyWorld).world.store lockA.name ≠
      some { value := lockA.id, ttl := lockA.conf.Expire } ∧
    held lockA (lockA.Lock emptyWorld).world = false :=
  ⟨New_lockA, rfl, rfl, by simp [RedLock.Lock, emptyWorld], rfl⟩

/-- C12, the code at the failing input: `Unlock()` on a lock that was never
acquired hands no error to the caller, neither when the key is absent nor when
it belongs to another token; `ErrLockNotHeld` is not reported. -/
theorem Unlock_reports_nothing :
    New constRand () "jobs" "a" zeroConfig = (some lockA, none) ∧
    held lockA emptyWorld = false ∧
    (lockA.Unlock emptyWorld).err = none ∧
    (lockA.Unlock emptyWorld).err ≠ some Err.ErrLockNotHeld ∧
    held lockA otherWorld = false ∧
    (lockA.Unlock otherWorld).err = none ∧
    (lockA.Unlock otherWorld).err ≠ some Err.ErrLockNotHeld :=
  ⟨New_lockA, rfl, rfl, by simp [RedLock.Unlock], by decide, rfl,
    by simp [RedLock.Unlock]⟩

/-- C13: when the value stored under the name of a lock differs from the token
of the lock, `Unlock()` leaves that record (key, value and time to live) in
place and unchanged; the whole store is unchanged. -/
theorem Unlock_keeps_foreign_record {Cli : Type} (rd : RedLock Cli) (w : World)
    (r : Record) (hs : w.store rd.name = some r) (hv : r.value ≠ rd.id) :
    (rd.Unlock w).world.store rd.name = some r ∧
    held rd (rd.Unlock w).world = false ∧
    (rd.Unlock w).world.store = w.store := by
  refine ⟨hs, ?_, rfl⟩
  unfold held
  simp only [RedLock.Unlock, hs, beq_eq_false_iff_ne, ne_eq]
  exact hv

/-- Witness of C13: the lock `lockA` in a store where `jobs` belongs to `other`. -/
theorem Unlock_keeps_foreign_record_witness :
    otherWorld.store lockA.name = some { value := "other", ttl := 300 } ∧
    ({ value := "other", ttl := 300 } : Record).value ≠ lockA.id ∧
    (lockA.Unlock otherWorld).world.store lockA.name =
      some { value := "other", ttl := 300 } ∧
    held lockA (lockA.Unlock otherWorld).world = false ∧
    (lockA.Unlock otherWorld).world.store = otherWorld.store :=
  ⟨rfl, by decide,
    Unlock_keeps_foreign_record lockA otherWorld { value := "other", ttl := 300 } rfl
      (by decide)⟩

/-- C14, the code at the failing input: two locks built by `New` with the same
name and different tokens, non-blocking and without retry, call `Lock()` on an
empty store.  In either order no call hands back `ErrNotAcquired` (or any
error), no client call is issued, and afterwards neither lock is held: no
acquire succeeds.  `Lock()` issues no store operation, so there is nothing to
interleave and the two orders cover every schedule. -/
theorem Lock_twice_none_acquires :
    New constRand () "jobs" "a" zeroConfig = (some lockA, none) ∧
    New constRand () "jobs" "b" zeroConfig = (some lockB, none) ∧
    lockA.name = lockB.name ∧ lockA.id ≠ lockB.id ∧
    lockA.conf.Block = false ∧ lockA.conf.AutoRetry = false ∧
    lockB.conf.Block = false ∧ lockB.conf.AutoRetry = false ∧
    (lockA.Lock emptyWorld).err = none ∧
    (lockB.Lock (lockA.Lock emptyWorld).world).err = none ∧
    (lockB.Lock emptyWorld).err = none ∧
    (lockA.Lock (lockB.Lock emptyWorld).world).err = none ∧
    (lockB.Lock (lockA.Lock emptyWorld).world).world.calls = [] ∧
    (lockA.Lock (lockB.Lock emptyWorld).world).world.calls = [] ∧
    held lockA (lockB.Lock (lockA.Lock emptyWorld).world).world = false ∧
    held lockB (lockB.Lock (lockA.Lock emptyWorld).world).world = false ∧
    held lockA (lockA.Lock (lockB.Lock emptyWorld).world).world = false ∧
    held lockB (lockA.Lock (lockB.Lock emptyWorld).world).world = false :=
  ⟨New_lockA, New_lockB, rfl, by decide, rfl, rfl, rfl, rfl, rfl, rfl, rfl, rfl,
    rfl, rfl, rfl, rfl, rfl, rfl⟩

/-- C15: the outcome of `New` is either a lock and no error, or no lock and
an error; it is a lock exactly when the name is not empty and the expire is
`<= 0` or `>= 300`; the error is never `ErrNotAcquired` or `ErrLockNotHeld`; it
is `ErrLockExpireTooSmall` exactly when `0 < Expire < 300`, and
`ErrLockWithoutName` exactly when the name is empty and the expire is not in
that range. -/
theorem New_outcome {Cli : Type} (rand : Nat → String) (cli : Cli)
    (name id : String) (conf : Config) :
    (((New rand cli name id conf).1.isSome = true ∧ (New rand cli name id conf).2 = none) ∨
      ((New rand cli name id conf).1 = none ∧
        (New rand cli name id conf).2.isSome = true)) ∧
    ((New rand cli name id conf).1.isSome = true ↔
      (name ≠ "" ∧ (conf.Expire ≤ 0 ∨ 300 ≤ conf.Expire))) ∧
    ((New rand cli name id conf).2 = none ↔
      (name ≠ "" ∧ (conf.Expire ≤ 0 ∨ 300 ≤ conf.Expire))) ∧
    (∀ e, (New rand cli name id conf).2 = some e →
      e = Err.ErrLockExpireTooSmall ∨ e = Err.ErrLockWithoutName) ∧
    (New rand cli name id conf).2 ≠ some Err.ErrNotAcquired ∧
    (New rand cli name id conf).2 ≠ some Err.ErrLockNotHeld ∧
    ((New rand cli name id conf).2 = some Err.ErrLockExpireTooSmall ↔
      (0 < conf.Expire ∧ conf.Expire < 300)) ∧
    ((New rand cli name id conf).2 = some Err.ErrLockWithoutName ↔
      (name = "" ∧ ¬ (0 < conf.Expire ∧ conf.Expire < 300))) := by
  rw [New_eq]
  unfold MinLockExpire
  by_cases h1 : 0 < conf.Expire ∧ conf.Expire < 300
  · have h3 : ¬ (conf.Expire ≤ 0 ∨ 300 ≤ conf.Expire) := by omega
    simp [if_pos h1, h1, h3]
  · have h3 : conf.Expire ≤ 0 ∨ 300 ≤ conf.Expire := by omega
    by_cases h2 : name = ""
    · simp [if_neg h1, h1, if_pos h2, h2]
    · simp [if_neg h1, h1, if_neg h2, h2, h3]

/-- C16: a successful `New` keeps `Block`, `AutoRetry` and `AutoRefresh`; it
keeps `Expire` when the input is at least 300; it keeps `Retries` unless
`AutoRetry` is true and the input is `<= 0` (so it keeps any `Retries` when
`AutoRetry` is false); and it keeps `refreshInterval` when `AutoRefresh` is
false. -/
theorem New_keeps_fields {Cli : Type} (rand : Nat → String) (cli : Cli)
    (name id : String) (conf : Config) (l : RedLock Cli)
    (h : New rand cli name id conf = (some l, none)) :
    l.conf.Block = conf.Block ∧ l.conf.AutoRetry = conf.AutoRetry ∧
    l.conf.AutoRefresh = conf.AutoRefresh ∧
    (300 ≤ conf.Expire → l.conf.Expire = conf.Expire) ∧
    (¬ (conf.AutoRetry = true ∧ conf.Retries ≤ 0) → l.conf.Retries = conf.Retries) ∧
    (conf.AutoRetry = false → l.conf.Retries = conf.Retries) ∧
    (conf.AutoRefresh = false → l.conf.refreshInterval = conf.refreshInterval) := by
  obtain ⟨_, _, hl⟩ := New_success (congrArg Prod.fst h)
  subst hl
  refine ⟨rfl, rfl, rfl, ?_, ?_, ?_, ?_⟩
  · intro he
    have : ¬ conf.Expire ≤ 0 := by omega
    simp only [normalised, if_neg this]
  · intro hr
    simp only [normalised, if_neg hr]
  · intro ha
    simp [normalised, ha]
  · intro ha
    simp [normalised, ha]

/-- Witness of C16: `longConf` has expire 12582913 and `AutoRetry = false`. -/
theorem New_keeps_fields_witness :
    New constRand () "jobs" "t1" longConf = (some longLock, none) ∧
    longLock.conf.Block = longConf.Block ∧ longLock.conf.AutoRetry = longConf.AutoRetry ∧
    longLock.conf.AutoRefresh = longConf.AutoRefresh ∧
    (300 ≤ longConf.Expire → longLock.conf.Expire = longConf.Expire) ∧
    (¬ (longConf.AutoRetry = true ∧ longConf.Retries ≤ 0) →
      longLock.conf.Retries = longConf.Retries) ∧
    (longConf.AutoRetry = false → longLock.conf.Retries = longConf.Retries) ∧
    (longConf.AutoRefresh = false →
      longLock.conf.refreshInterval = longConf.refreshInterval) :=
  ⟨New_longConf, New_keeps_fields constRand () "jobs" "t1" longConf longLock New_longConf⟩

/-- C17: `Lock()` and `Unlock()` are no-ops: for every lock and every world
they add no client call to the log, leave the store unchanged, leave the lock
(client, name, token and configuration) unchanged, and hand no error to the
caller. -/
theorem Lock_Unlock_noop {Cli : Type} (rd : RedLock Cli) (w : World) :
    ((rd.Lock w).world.calls = w.calls ∧ (rd.Lock w).world.store = w.store ∧
      (rd.Lock w).lock = rd ∧ (rd.Lock w).err = none) ∧
    ((rd.Unlock w).world.calls = w.calls ∧ (rd.Unlock w).world.store = w.store ∧
      (rd.Unlock w).lock = rd ∧ (rd.Unlock w).err = none) :=
  ⟨⟨rfl, rfl, rfl, rfl⟩, ⟨rfl, rfl, rfl, rfl⟩⟩

/-- C18: every lock returned by a successful `New` with `AutoRefresh = true`
has a strictly positive `refreshInterval`, in fact at least 200, for every
accepted expire. -/
theorem New_refresh_ge {Cli : Type} (rand : Nat → String) (cli : Cli)
    (name id : String) (conf : Config) (l : RedLock Cli)
    (h : New rand cli name id conf = (some l, none))
    (ha : conf.AutoRefresh = true) :
    0 < l.conf.refreshInterval ∧ 200 ≤ l.conf.refreshInterval := by
  obtain ⟨_, he, hl⟩ := New_success (congrArg Prod.fst h)
  subst hl
  have hge := normalised_expire_ge he
  have hri : (normalised conf).refreshInterval = refreshOf (normalised conf).Expire := by
    simp [normalised, ha]
  have h200 := refreshOf_ge hge
  rw [hri]
  omega

/-- Witness of C18: the lock built from `longConf`. -/
theorem New_refresh_ge_witness :
    New constRand () "jobs" "t1" longConf = (some longLock, none) ∧
    longConf.AutoRefresh = true ∧
    0 < longLock.conf.refreshInterval ∧ 200 ≤ longLock.conf.refreshInterval :=
  ⟨New_longConf, rfl,
    New_refresh_ge constRand () "jobs" "t1" longConf longLock New_longConf rfl⟩

/-- C19: a configuration stored by a successful `New` is a fixed point of the
normalisation: given again to `New` with any non-empty name, any id, any
client and any generator, the call succeeds and stores the same configuration,
field for field. -/
theorem New_idempotent {A B : Type} (rand : Nat → String) (cli : A)
    (name id : String) (conf : Config) (l : RedLock A)
    (h : New rand cli name id conf = (some l, none))
    (rand2 : Nat → String) (cli2 : B) (name2 id2 : String) (hn : name2 ≠ "") :
    ∃ l2 : RedLock B, New rand2 cli2 name2 id2 l.conf = (some l2, none) ∧
      l2.conf = l.conf ∧
      l2.conf.Expire = l.conf.Expire ∧ l2.conf.Block = l.conf.Block ∧
      l2.conf.AutoRetry = l.conf.AutoRetry ∧ l2.conf.Retries = l.conf.Retries ∧
      l2.conf.AutoRefresh = l.conf.AutoRefresh ∧
      l2.conf.refreshInterval = l.conf.refreshInterval := by
  obtain ⟨_, he, hl⟩ := New_success (congrArg Prod.fst h)
  subst hl
  have hge : MinLockExpire ≤ (normalised conf).Expire := normalised_expire_ge he
  have hc : (⟨cli, name, if id = "" then rand 18 else id, normalised conf⟩ :
      RedLock A).conf = normalised conf := rfl
  rw [hc]
  refine ⟨_, New_valid rand2 cli2 id2 hn (Or.inr hge), ?_⟩
  have hi := normalised_idem he
  simp only [hi, and_self]

/-- Witness of C19: the configuration of `autoLock` given again to `New`. -/
theorem New_idempotent_witness :
    New constRand () "jobs" "" autoConf = (some autoLock, none) ∧ "mail" ≠ "" ∧
    ∃ l2 : RedLock Unit, New constRand () "mail" "t9" autoLock.conf = (some l2, none) ∧
      l2.conf = autoLock.conf ∧
      l2.conf.Expire = autoLock.conf.Expire ∧ l2.conf.Block = autoLock.conf.Block ∧
      l2.conf.AutoRetry = autoLock.conf.AutoRetry ∧
      l2.conf.Retries = autoLock.conf.Retries ∧
      l2.conf.AutoRefresh = autoLock.conf.AutoRefresh ∧
      l2.conf.refreshInterval = autoLock.conf.refreshInterval :=
  ⟨New_autoConf, by decide,
    New_idempotent constRand () "jobs" "" autoConf autoLock New_autoConf constRand ()
      "mail" "t9" (by decide)⟩

end Redlock
